import Mathlib

/-!
Verification of the searchx in-memory document store and query engine
(package `inmemory`, files `inmemory.go`, `filters.go`, `expressions.go`).

The Go code is shallowly embedded: Go `interface{}` field values become the
closed tagged union `Value`; Go `float64` becomes `ℚ` (all score arithmetic in
the engine is sums of 1.0 and one multiplication by 1.5, which are exact in
float64 for every reachable magnitude, so `ℚ` is a faithful carrier); Go `int`
becomes `ℤ`; Go maps become association lists; Go runtime panics become
distinguished error values.  String case folding and whitespace splitting are
modelled at ASCII granularity (Go uses the full Unicode tables; every claim
below is insensitive to the difference).
-/

/-! ### Character and string helpers

Executable models of the `strings` standard-library functions the engine uses:
`strings.Contains`, `strings.ToLower`, `strings.Fields`, `strings.Compare`.
They work on `List Char` so that every definition reduces in the kernel.
-/

/-- Model of ASCII lower-casing of a character sequence (`strings.ToLower`;
Go folds full Unicode, the claims only ever exercise ASCII). -/
def goToLowerChars (cs : List Char) : List Char :=
  cs.map Char.toLower

/-- Whether `needle` occurs at the very start of `hay`. -/
def leadsWith : List Char → List Char → Bool
  | [], _ => true
  | _ :: _, [] => false
  | a :: as, b :: bs => a == b && leadsWith as bs

/-- Whether `needle` occurs contiguously anywhere in `hay`
(model of `strings.Contains hay needle`). -/
def hasSubChars (hay needle : List Char) : Bool :=
  leadsWith needle hay ||
    match hay with
    | [] => false
    | _ :: t => hasSubChars t needle

/-- Split a character sequence into maximal whitespace-free words
(model of `strings.Fields`).  Implemented by a right fold that grows the
current word and flushes it at each whitespace character. -/
def splitWs (cs : List Char) : List (List Char) :=
  let p := cs.foldr
    (fun c (acc : List Char × List (List Char)) =>
      if c.isWhitespace then
        ([], if acc.1 = [] then acc.2 else acc.1 :: acc.2)
      else
        (c :: acc.1, acc.2))
    ([], [])
  if p.1 = [] then p.2 else p.1 :: p.2

/-- Three-way lexicographic comparison of character sequences by code point
(model of `strings.Compare`, which compares UTF-8 bytes; byte order and code
point order coincide). -/
def charsCompare : List Char → List Char → Int
  | [], [] => 0
  | [], _ :: _ => -1
  | _ :: _, [] => 1
  | a :: as, b :: bs =>
    if a.toNat < b.toNat then -1
    else if b.toNat < a.toNat then 1
    else charsCompare as bs

/-- Boolean key order used when rendering Go maps (fmt prints keys sorted). -/
def charsLe (a b : String) : Bool :=
  charsCompare a.data b.data ≤ 0

/-! ### The dynamic value model

A document field holds a Go `interface{}` produced by `encoding/json` or by a
caller.  The engine only ever inspects it through type switches over: `string`,
`[]interface{}`, `map[string]interface{}`, the numeric widths listed in
`toFloat64`, `bool`, and `nil`.  `Value` is the corresponding closed union;
`vint` stands for every integer width/signedness and `vfloat` for both float
widths, because `toFloat64` (the only place the widths matter) converts each of
them to `float64` with the same semantics.
-/

inductive Value where
  | vnull : Value
  | vbool : Bool → Value
  | vint : Int → Value
  | vfloat : ℚ → Value
  | vstr : String → Value
  | vlist : List Value → Value
  | vmap : List (String × Value) → Value

/-- Model of the Go test `v == nil` on an `interface{}` value. -/
def Value.isNullB : Value → Bool
  | .vnull => true
  | _ => false

/-- Model of `toFloat64` (inmemory.go): the numeric widths all convert to
`float64`; every other dynamic type reports failure. -/
def toFloat64 : Value → Option ℚ
  | .vfloat q => some q
  | .vint n => some (n : ℚ)
  | _ => none

/-- Generic insertion sort parameterised by a Boolean `le`.  It stands in for
Go's `sort.Slice(x, less)`, which produces an unspecified permutation that is
ordered by `less`; insertion sort with `le a b := !(less b a)` is one such
permutation, and every claim below depends only on properties shared by all of
them. -/
def insertGo (le : α → α → Bool) (a : α) : List α → List α
  | [] => [a]
  | b :: l => if le a b then a :: b :: l else b :: insertGo le a l

/-- See `insertGo`. -/
def insertionSortGo (le : α → α → Bool) : List α → List α
  | [] => []
  | a :: l => insertGo le a (insertionSortGo le l)

/-- Concatenate strings with single-space separators (Go fmt's element
separator inside `[...]` and `map[...]`). -/
def joinSpace : List String → String
  | [] => ""
  | [s] => s
  | s :: rest => s ++ " " ++ joinSpace rest

/-- Pad the decimal rendering of `m` on the left with zeros to `k` digits. -/
def padDigits (k : ℕ) (m : ℕ) : String :=
  String.mk (List.replicate (k - (toString m).length) '0') ++ toString m

/-- Smallest exponent `k` with `den ∣ 10 ^ k`.  A `float64` value always has a
power-of-two denominator below `2 ^ 1075`, so the search range covers every
value the Go engine can hold. -/
def decExp (den : ℕ) : Option ℕ :=
  (List.range 1100).find? (fun k => decide (den ∣ 10 ^ k))

/-- Decimal rendering of a numeric value (Go fmt `%v` on `float64` prints the
shortest decimal that round-trips; on the exact rational carrier this is the
exact decimal expansion).  Scientific notation for extreme magnitudes is not
modelled; no claim depends on it. -/
def renderFloat (q : ℚ) : String :=
  let sign := if q < 0 then "-" else ""
  if q.den = 1 then sign ++ toString q.num.natAbs
  else
    match decExp q.den with
    | some k =>
      let scaled := q.num.natAbs * (10 ^ k / q.den)
      sign ++ toString (scaled / 10 ^ k) ++ "." ++ padDigits k (scaled % 10 ^ k)
    | none => sign ++ toString q.num.natAbs ++ "/" ++ toString q.den

mutual

/-- Model of Go `fmt.Sprintf("%v", v)` on a dynamic value: `nil` prints as
`<nil>`, booleans as `true`/`false`, numbers in decimal, strings verbatim,
slices as space-separated elements in brackets, maps as `map[k:v ...]` with
keys in sorted order (fmt sorts map keys). -/
def renderValue : Value → String
  | .vnull => "<nil>"
  | .vbool true => "true"
  | .vbool false => "false"
  | .vint n => (if n < 0 then "-" else "") ++ toString n.natAbs
  | .vfloat q => renderFloat q
  | .vstr s => s
  | .vlist items => "[" ++ renderList items ++ "]"
  | .vmap kvs =>
    "map[" ++
      joinSpace ((insertionSortGo (fun a b => charsLe a.1 b.1)
        (renderMapEntries kvs)).map (fun kv => kv.1 ++ ":" ++ kv.2)) ++ "]"

/-- Space-joined renderings of the elements of a slice. -/
def renderList : List Value → String
  | [] => ""
  | [v] => renderValue v
  | v :: rest => renderValue v ++ " " ++ renderList rest

/-- Render the values of a map's entries, keeping the keys for sorting. -/
def renderMapEntries : List (String × Value) → List (String × String)
  | [] => []
  | kv :: rest => (kv.1, renderValue kv.2) :: renderMapEntries rest

end

/-- Model of `compareEqual` (filters.go): nil handling first, then numeric
coercion, then canonical-string fallback. -/
def compareEqual (v1 v2 : Value) : Bool :=
  if v1.isNullB || v2.isNullB then
    v1.isNullB && v2.isNullB
  else
    match toFloat64 v1, toFloat64 v2 with
    | some f1, some f2 => f1 == f2
    | _, _ => renderValue v1 == renderValue v2

/-- Model of `compareValues` (inmemory.go): nil is below everything, numerics
compare by the coerced float, everything else by canonical string rendering. -/
def compareValues (v1 v2 : Value) : Int :=
  if v1.isNullB && v2.isNullB then 0
  else if v1.isNullB then -1
  else if v2.isNullB then 1
  else
    match toFloat64 v1, toFloat64 v2 with
    | some f1, some f2 =>
      if f1 < f2 then -1 else if f1 > f2 then 1 else 0
    | _, _ => charsCompare (renderValue v1).data (renderValue v2).data

/-! ### Documents and filter expressions -/

/-- Model of `inmemory.Document`: an id plus a field map.  The Go field map is
a `map[string]interface{}`; it is modelled as an association list with the
understanding that keys are unique (JSON decoding and map semantics guarantee
it), and looked up with `List.lookup`. -/
structure Document where
  ID : String
  Fields : List (String × Value)

/-- Model of `searchx.SortField`. -/
structure SortField where
  Field : String
  Desc : Bool

/-- Model of the closed `searchx.Expression` union (expressions.go).  `rangeE`
carries its bounds as `Value`s, with `vnull` standing for the Go `nil` bound
(no constraint on that side). -/
inductive Expr where
  | andE (exprs : List Expr)
  | orE (exprs : List Expr)
  | notE (inner : Expr)
  | eqE (field : String) (value : Value)
  | neE (field : String) (value : Value)
  | gtE (field : String) (value : Value)
  | gteE (field : String) (value : Value)
  | ltE (field : String) (value : Value)
  | lteE (field : String) (value : Value)
  | rangeE (field : String) (lo hi : Value)
  | existsE (field : String)

/-- Model of `searchx.SearchConfig`.  Go `int` is `ℤ` (the claims quantify over
negative offsets and limits as well).  The Go field `Sort` is renamed
`SortBy` because `Sort` is reserved in Lean. -/
structure SearchConfig where
  Limit : Int
  Offset : Int
  SortBy : List SortField
  Filters : List Expr

/-- Comma-ok map read `doc.Fields[field]`. -/
def Document.fieldGet (doc : Document) (field : String) : Option Value :=
  doc.Fields.lookup field

mutual

/-- Model of `evaluateExpression` and the per-operator evaluators
(filters.go).  The Go default case (unknown expression type passes the filter)
is unreachable here because `Expr` is a closed union. -/
def evaluateExpression (doc : Document) : Expr → Bool
  | .andE exprs => listEvalAnd doc exprs
  | .orE exprs => listEvalOr doc exprs
  | .notE inner => !evaluateExpression doc inner
  | .eqE field value =>
    match doc.fieldGet field with
    | none => value.isNullB
    | some docValue => compareEqual docValue value
  | .neE field value =>
    match doc.fieldGet field with
    | none => !value.isNullB
    | some docValue => !compareEqual docValue value
  | .gtE field value =>
    match doc.fieldGet field with
    | none => false
    | some docValue => compareValues docValue value > 0
  | .gteE field value =>
    match doc.fieldGet field with
    | none => false
    | some docValue => compareValues docValue value ≥ 0
  | .ltE field value =>
    match doc.fieldGet field with
    | none => false
    | some docValue => compareValues docValue value < 0
  | .lteE field value =>
    match doc.fieldGet field with
    | none => false
    | some docValue => compareValues docValue value ≤ 0
  | .rangeE field lo hi =>
    match doc.fieldGet field with
    | none => false
    | some docValue =>
      if !lo.isNullB && compareValues docValue lo < 0 then false
      else if !hi.isNullB && compareValues docValue hi > 0 then false
      else true
  | .existsE field => (doc.fieldGet field).isSome

/-- Model of `evaluateAnd`: every child must pass, short-circuiting. -/
def listEvalAnd (doc : Document) : List Expr → Bool
  | [] => true
  | e :: rest => evaluateExpression doc e && listEvalAnd doc rest

/-- Model of `evaluateOr`: some child must pass, short-circuiting. -/
def listEvalOr (doc : Document) : List Expr → Bool
  | [] => false
  | e :: rest => evaluateExpression doc e || listEvalOr doc rest

end

/-- Model of `matchesFilters`: the implicit AND of the configured filters. -/
def matchesFilters (doc : Document) (filters : List Expr) : Bool :=
  listEvalAnd doc filters

/-! ### Relevance scoring -/

mutual

/-- Model of `valueContainsTerm` (inmemory.go): strings by case-insensitive
substring containment, slices and maps recursively, every other scalar via its
canonical string rendering.  `term` is already lower-cased by the caller. -/
def valueContainsTerm (value : Value) (term : List Char) : Bool :=
  match value with
  | .vstr s => hasSubChars (goToLowerChars s.data) term
  | .vlist items => listAnyContains items term
  | .vmap kvs => mapAnyContains kvs term
  | v => hasSubChars (goToLowerChars (renderValue v).data) term

/-- The slice case of `valueContainsTerm`: any element contains the term. -/
def listAnyContains : List Value → List Char → Bool
  | [], _ => false
  | v :: rest, term => valueContainsTerm v term || listAnyContains rest term

/-- The map case of `valueContainsTerm`: any entry value contains the term. -/
def mapAnyContains : List (String × Value) → List Char → Bool
  | [], _ => false
  | kv :: rest, term => valueContainsTerm kv.2 term || mapAnyContains rest term

end

/-- The inner field loop of `scoreDocument` for a single term: the number of
top-level fields whose value contains the term (each such field adds 1.0 to
the running score, and the term counts as matched iff this is positive). -/
def termFieldHits (doc : Document) (term : List Char) : ℕ :=
  doc.Fields.countP (fun kv => valueContainsTerm kv.2 term)

/-- Model of `scoreDocument` (inmemory.go).  The Go loop accumulates the
running score and the matched-term counter in one pass; the fold carries the
same pair. -/
def scoreDocument (doc : Document) (query : String) : ℚ :=
  if query = "" then 1
  else
    let terms := splitWs (goToLowerChars query.data)
    if terms.isEmpty then 1
    else
      let p := terms.foldl
        (fun (acc : ℚ × ℕ) term =>
          let hits := termFieldHits doc term
          (acc.1 + (hits : ℚ), if 0 < hits then acc.2 + 1 else acc.2))
        (0, 0)
      if p.2 = 0 then 0
      else if p.2 = terms.length then p.1 * (3 / 2)
      else p.1

/-- Score of a document as a function of its per-term field-hit counts: the
shape `scoreDocument` takes once the per-term inner loops are summarised by
`termFieldHits` (see `scoreDocument_eq_scoreFromCounts`). -/
def scoreFromCounts (counts : List ℕ) : ℚ :=
  if counts.isEmpty then 1
  else
    let base : ℚ := (counts.map (fun c : ℕ => (c : ℚ))).sum
    let matched := counts.countP (fun c => 0 < c)
    if matched = 0 then 0
    else if matched = counts.length then base * (3 / 2)
    else base

/-- The relevance score exactly as the specification words it (for the
refinement check in claim C2): empty term list scores 1; each (term, field)
pair whose field value contains the term adds 1; no term found anywhere gives
0; every term found at least once multiplies the sum by 1.5.  To be compared
against `scoreDocument`, which is translated from the code. -/
def specScore (doc : Document) (query : String) : ℚ :=
  let terms := splitWs (goToLowerChars query.data)
  if terms = [] then 1
  else
    let hits := fun t =>
      (doc.Fields.filter fun kv => valueContainsTerm kv.2 t).length
    let base : ℚ := (terms.map fun t => ((hits t : ℕ) : ℚ)).sum
    if terms.all fun t => decide (hits t = 0) then 0
    else if terms.all fun t => decide (0 < hits t) then base * (3 / 2)
    else base

/-! ### Ranking and the search pipeline -/

/-- Model of `scoredDocument` (inmemory.go). -/
structure ScoredDoc where
  document : Document
  score : ℚ

/-- The multi-key `less` closure passed to `sort.Slice` in `sortMatches`:
keys are evaluated left to right, `_score` refers to the computed relevance
score, a document field read misses as Go `nil`, and ties fall through to the
next key. -/
def multiKeyLess (sortFields : List SortField) (a b : ScoredDoc) : Bool :=
  match sortFields with
  | [] => false
  | sf :: rest =>
    if sf.Field = "_score" then
      if a.score == b.score then multiKeyLess rest a b
      else if sf.Desc then a.score > b.score
      else a.score < b.score
    else
      let val1 := (a.document.fieldGet sf.Field).getD .vnull
      let val2 := (b.document.fieldGet sf.Field).getD .vnull
      let cmp := compareValues val1 val2
      if cmp == 0 then multiKeyLess rest a b
      else if sf.Desc then cmp > 0
      else cmp < 0

/-- Model of `sortMatches` (inmemory.go): with no sort fields the default is
score descending, otherwise the multi-key comparison.  `sort.Slice`'s
unspecified permutation is realised by `insertionSortGo` (see there). -/
def sortMatches (ms : List ScoredDoc) (sortFields : List SortField) :
    List ScoredDoc :=
  if sortFields.isEmpty then
    insertionSortGo (fun a b => !(decide (b.score > a.score))) ms
  else
    insertionSortGo (fun a b => !(multiKeyLess sortFields b a)) ms

/-- The errors Search can surface: `canceled` models `searchx.ErrCanceled`;
the two panic values model the Go runtime panics that `Search` incurs when the
un-clamped slice bounds go negative (`make` with negative capacity, indexing a
slice at a negative position). -/
inductive SearchErr where
  | canceled
  | panicNegativeCap
  | panicIndexOutOfRange

/-- Model of `searchx.Result`. -/
structure SResult where
  ID : String
  Score : ℚ
  Fields : List (String × Value)

/-- Model of `searchx.Results`.  `Took` (wall-clock milliseconds) is omitted:
it is real-time measurement with no logical content. -/
structure SearchResults where
  Items : List SResult
  Total : Int
  MaxScore : ℚ
  Query : String
  NextOffset : Option Int

/-- The per-document scan loop of `Search`: at each document the caller's
cancellation signal is checked (check number `t`), then the filters are
applied, then the document is scored and kept iff its score is positive.
`ctxDone t` tells whether the caller's context is done at the `t`-th check of
this call (check 0 happens before the scan starts). -/
def scanDocs (ctxDone : ℕ → Bool) (query : String) (filters : List Expr) :
    List Document → ℕ → Except SearchErr (List ScoredDoc)
  | [], _ => .ok []
  | d :: rest, t =>
    if ctxDone t then .error .canceled
    else
      match scanDocs ctxDone query filters rest (t + 1) with
      | .error e => .error e
      | .ok ms =>
        if !matchesFilters d filters then .ok ms
        else
          let score := scoreDocument d query
          if 0 < score then .ok (⟨d, score⟩ :: ms) else .ok ms

/-- The matches the scan produces when cancellation never fires (see
`scanDocs_ok_of_never`): the documents that pass the filters and score
positively, in scan order, with their scores. -/
def searchMatches (docs : List Document) (query : String)
    (filters : List Expr) : List ScoredDoc :=
  docs.filterMap fun d =>
    if matchesFilters d filters then
      let score := scoreDocument d query
      if 0 < score then some ⟨d, score⟩ else none
    else none

/-- Field-for-field conversion of a sorted match into a `searchx.Result`. -/
def toSResult (m : ScoredDoc) : SResult :=
  ⟨m.document.ID, m.score, m.document.Fields⟩

/-- The clamp-from-above applied by `Search` to both slice bounds:
`if x > total { x = total }`.  There is no clamp from below. -/
def clampHi (x total : Int) : Int :=
  if x > total then total else x

/-- Model of `Search` (inmemory.go).  Steps, exactly as in the source: check
the context, default the limit (0 becomes 10), scan (filter + score, checking
the context at each document), sort, compute `total`, clamp `end` and `start`
from above to `len(matches)` (there is no clamp from below), slice, take the
running maximum score over the sliced items, and set `NextOffset` iff the
slice stopped short of the total.  A negative slice capacity or a negative
start index is returned as the corresponding panic value. -/
def searchGo (docs : List Document) (ctxDone : ℕ → Bool) (query : String)
    (cfg : SearchConfig) : Except SearchErr SearchResults :=
  if ctxDone 0 then .error .canceled
  else
    let limit := if cfg.Limit = 0 then 10 else cfg.Limit
    match scanDocs ctxDone query cfg.Filters docs 1 with
    | .error e => .error e
    | .ok ms =>
      let sorted := sortMatches ms cfg.SortBy
      let total : Int := sorted.length
      let endB : Int := clampHi (cfg.Offset + limit) total
      let startB : Int := clampHi cfg.Offset total
      if endB - startB < 0 then .error .panicNegativeCap
      else if startB < 0 ∧ startB < endB then .error .panicIndexOutOfRange
      else
        let items := ((sorted.take endB.toNat).drop startB.toNat).map toSResult
        let maxScore := items.foldl
          (fun mx r => if r.Score > mx then r.Score else mx) 0
        .ok { Items := items, Total := total, MaxScore := maxScore,
              Query := query,
              NextOffset := if endB < total then some endB else none }

/-- The context signal of a caller that never cancels. -/
def ctxNever : ℕ → Bool := fun _ => false

/-! ### The document store -/

/-- Model of `inmemory.Searcher`'s state: the document slice plus the
id-to-position index (a Go map, modelled as an association list whose `lookup`
agrees with the map on well-formed states). -/
structure Store where
  documents : List Document
  idIndex : List (String × ℕ)

/-- Model of `AddDocument` (inmemory.go): replace in place when the id is
already indexed, otherwise append and index the new position. -/
def AddDocument (s : Store) (doc : Document) : Store :=
  match s.idIndex.lookup doc.ID with
  | some idx => { s with documents := s.documents.set idx doc }
  | none =>
    { documents := s.documents ++ [doc],
      idIndex := (doc.ID, s.documents.length) :: s.idIndex }

/-- Model of `Size`. -/
def Size (s : Store) : ℕ :=
  s.documents.length

/-- Well-formedness of a store, maintained by every mutation in the source:
each index entry points at a document bearing its id, and each document's id
is indexed at the document's position.  (`New`, `AddDocument`,
`RemoveDocument` and `Clear` all preserve it.) -/
def StoreWF (s : Store) : Prop :=
  (∀ p ∈ s.idIndex, (s.documents[p.2]?).map Document.ID = some p.1) ∧
  (∀ i : Fin s.documents.length,
    s.idIndex.lookup (s.documents.get i).ID = some i.1)

/-! ### Concrete sample data

Small concrete stores and documents used to evaluate the engine at specific
inputs in the theorems below.
-/

/-- A one-field document. -/
def paginationDoc : Document :=
  ⟨"1", [("title", .vstr "x")]⟩

/-- A document that repeats a term inside one field and also carries it in a
second field. -/
def scoringDoc : Document :=
  ⟨"1", [("title", .vstr "Go"), ("tags", .vlist [.vstr "go", .vstr "go"])]⟩

/-- A scored match whose document has no `f` field. -/
def sortDocA : ScoredDoc :=
  ⟨⟨"a", []⟩, 1⟩

/-- A scored match whose document has a non-null `f` field. -/
def sortDocB : ScoredDoc :=
  ⟨⟨"b", [("f", .vstr "x")]⟩, 1⟩

/-- A singleton well-formed store. -/
def sampleStore : Store :=
  ⟨[⟨"1", [("a", .vnull)]⟩], [("1", 0)]⟩

/-! ### General lemmas about the embedding -/

theorem Value.isNullB_eq_true_iff (v : Value) : v.isNullB = true ↔ v = .vnull := by
  cases v <;> simp [Value.isNullB]

theorem Value.isNullB_eq_false_iff (v : Value) : v.isNullB = false ↔ v ≠ .vnull := by
  cases v <;> simp [Value.isNullB]

theorem toFloat64_vnull : toFloat64 .vnull = none := rfl

theorem length_insertGo (le : α → α → Bool) (a : α) (l : List α) :
    (insertGo le a l).length = l.length + 1 := by
  induction l with
  | nil => rfl
  | cons b t ih =>
    simp only [insertGo]
    split
    · simp
    · simp [ih]

theorem length_insertionSortGo (le : α → α → Bool) (l : List α) :
    (insertionSortGo le l).length = l.length := by
  induction l with
  | nil => rfl
  | cons a t ih => simp [insertionSortGo, length_insertGo, ih]

theorem length_sortMatches (ms : List ScoredDoc) (sfs : List SortField) :
    (sortMatches ms sfs).length = ms.length := by
  unfold sortMatches
  split <;> exact length_insertionSortGo _ _

theorem lookup_mem {l : List (String × β)} {a : String} {b : β}
    (h : l.lookup a = some b) : (a, b) ∈ l := by
  induction l with
  | nil => simp [List.lookup] at h
  | cons p t ih =>
    rcases p with ⟨x, y⟩
    by_cases hab : a = x
    · subst hab
      simp [List.lookup] at h
      simp [h]
    · have hne : (a == x) = false := beq_false_of_ne hab
      simp only [List.lookup, hne] at h
      exact List.mem_cons_of_mem _ (ih h)

theorem scanDocs_never (query : String) (filters : List Expr)
    (docs : List Document) (t : ℕ) :
    scanDocs ctxNever query filters docs t =
      .ok (searchMatches docs query filters) := by
  induction docs generalizing t with
  | nil => rfl
  | cons d rest ih =>
    simp only [scanDocs, ctxNever, Bool.false_eq_true, if_false, ih,
      searchMatches, List.filterMap_cons]
    by_cases hm : matchesFilters d filters
    · simp only [hm, Bool.not_true, Bool.false_eq_true, if_false, if_true]
      by_cases hs : 0 < scoreDocument d query
      · simp [hs, searchMatches]
      · simp [hs, searchMatches]
    · simp only [Bool.not_eq_true] at hm
      simp [hm, searchMatches]

theorem searchMatches_eq_map_filter (docs : List Document) (query : String)
    (filters : List Expr) :
    searchMatches docs query filters =
      (docs.filter fun d =>
          matchesFilters d filters && decide (0 < scoreDocument d query)).map
        (fun d => ⟨d, scoreDocument d query⟩) := by
  induction docs with
  | nil => rfl
  | cons d rest ih =>
    simp only [searchMatches, List.filterMap_cons, List.filter_cons]
    by_cases hm : matchesFilters d filters
    · by_cases hs : 0 < scoreDocument d query
      · simpa [hm, hs] using ih
      · simpa [hm, hs] using ih
    · simpa [hm] using ih

theorem scanDocs_canceled_iff (ctxDone : ℕ → Bool) (query : String)
    (filters : List Expr) (docs : List Document) (t : ℕ) :
    scanDocs ctxDone query filters docs t = .error .canceled ↔
      ∃ j, t ≤ j ∧ j < t + docs.length ∧ ctxDone j = true := by
  induction docs generalizing t with
  | nil =>
    simp only [scanDocs, List.length_nil, Nat.add_zero]
    constructor
    · intro h
      cases h
    · rintro ⟨j, h1, h2, _⟩
      omega
  | cons d rest ih =>
    by_cases hc : ctxDone t = true
    · constructor
      · intro _
        exact ⟨t, le_refl t, by simp only [List.length_cons]; omega, hc⟩
      · intro _
        simp [scanDocs, hc]
    · rw [Bool.not_eq_true] at hc
      constructor
      · intro h
        simp only [scanDocs, hc, Bool.false_eq_true, if_false] at h
        rcases hr : scanDocs ctxDone query filters rest (t + 1) with e | ms
        · rw [hr] at h
          simp at h
          rcases (ih (t + 1)).mp (by rw [hr, h]) with ⟨j, h1, h2, h3⟩
          refine ⟨j, by omega, ?_, h3⟩
          simp only [List.length_cons]
          omega
        · rw [hr] at h
          by_cases hm : !matchesFilters d filters
          · simp [hm] at h
          · simp only [hm, Bool.false_eq_true, if_false] at h
            by_cases hs : 0 < scoreDocument d query
            · simp [hs] at h
            · simp [hs] at h
      · rintro ⟨j, h1, h2, h3⟩
        have hj : t + 1 ≤ j := by
          rcases Nat.lt_or_ge j (t + 1) with hlt | hge
          · exfalso
            have hjt : j = t := by omega
            rw [hjt, hc] at h3
            cases h3
          · exact hge
        have hscan : scanDocs ctxDone query filters rest (t + 1) =
            .error .canceled := by
          refine (ih (t + 1)).mpr ⟨j, hj, ?_, h3⟩
          simp only [List.length_cons] at h2
          omega
        simp [scanDocs, hc, hscan]

theorem scoreLoop_eq (doc : Document) (terms : List (List Char)) :
    ∀ (a : ℚ) (m : ℕ),
      terms.foldl
        (fun (acc : ℚ × ℕ) term =>
          let hits := termFieldHits doc term
          (acc.1 + (hits : ℚ), if 0 < hits then acc.2 + 1 else acc.2))
        (a, m) =
      (a + ((terms.map fun t => ((termFieldHits doc t : ℕ) : ℚ)).sum),
        m + terms.countP fun t => decide (0 < termFieldHits doc t)) := by
  induction terms with
  | nil => simp
  | cons t rest ih =>
    intro a m
    simp only [List.foldl_cons, List.map_cons, List.sum_cons, List.countP_cons,
      ih, Prod.mk.injEq]
    constructor
    · ring
    · by_cases h : 0 < termFieldHits doc t
      · simp [h]
        omega
      · simp [h]

theorem scoreDocument_eq_scoreFromCounts (doc : Document) (query : String)
    (hq : query ≠ "") :
    scoreDocument doc query =
      scoreFromCounts
        ((splitWs (goToLowerChars query.data)).map (termFieldHits doc)) := by
  unfold scoreDocument scoreFromCounts
  rw [if_neg hq]
  simp only [scoreLoop_eq doc _ 0 0, Nat.zero_add, zero_add,
    List.map_map, List.countP_map, List.length_map, List.isEmpty_iff,
    List.map_eq_nil_iff]
  by_cases he : splitWs (goToLowerChars query.data) = []
  · simp [he]
  · simp only [he, if_false]
    have hbase :
        List.map (fun t => ((termFieldHits doc t : ℕ) : ℚ))
            (splitWs (goToLowerChars query.data)) =
          List.map ((fun c : ℕ => (c : ℚ)) ∘ termFieldHits doc)
            (splitWs (goToLowerChars query.data)) := rfl
    rw [hbase, ← List.map_map]
    rfl

theorem clampHi_le_total (x total : Int) : clampHi x total ≤ total ∨ clampHi x total = x := by
  unfold clampHi
  split
  · exact Or.inl (le_refl total)
  · exact Or.inr rfl

theorem clampHi_mono {x y : Int} (total : Int) (h : x ≤ y) :
    clampHi x total ≤ clampHi y total := by
  unfold clampHi
  split_ifs <;> omega

theorem clampHi_nonneg {x total : Int} (hx : 0 ≤ x) (ht : 0 ≤ total) :
    0 ≤ clampHi x total := by
  unfold clampHi
  split <;> omega

theorem searchGo_ok (docs : List Document) (query : String) (cfg : SearchConfig)
    (hoff : 0 ≤ cfg.Offset) (hlim : 0 ≤ cfg.Limit) :
    searchGo docs ctxNever query cfg = .ok
      (let sorted := sortMatches (searchMatches docs query cfg.Filters) cfg.SortBy
       let total : Int := sorted.length
       let endB := clampHi (cfg.Offset + (if cfg.Limit = 0 then 10 else cfg.Limit)) total
       let startB := clampHi cfg.Offset total
       let items := ((sorted.take endB.toNat).drop startB.toNat).map toSResult
       { Items := items, Total := total,
         MaxScore := items.foldl (fun mx r => if r.Score > mx then r.Score else mx) 0,
         Query := query,
         NextOffset := if endB < total then some endB else none }) := by
  unfold searchGo
  rw [scanDocs_never]
  simp only [ctxNever, Bool.false_eq_true, if_false]
  have hL : (0 : Int) ≤
      ((sortMatches (searchMatches docs query cfg.Filters) cfg.SortBy).length : Int) :=
    Int.ofNat_nonneg _
  have hlim1 : (0 : Int) ≤ (if cfg.Limit = 0 then 10 else cfg.Limit) := by
    split_ifs <;> omega
  have hse : clampHi cfg.Offset
        ((sortMatches (searchMatches docs query cfg.Filters) cfg.SortBy).length : Int) ≤
      clampHi (cfg.Offset + (if cfg.Limit = 0 then 10 else cfg.Limit))
        ((sortMatches (searchMatches docs query cfg.Filters) cfg.SortBy).length : Int) :=
    clampHi_mono _ (by omega)
  have hs0 : (0 : Int) ≤ clampHi cfg.Offset
      ((sortMatches (searchMatches docs query cfg.Filters) cfg.SortBy).length : Int) :=
    clampHi_nonneg hoff hL
  rw [if_neg (by omega), if_neg (by omega)]

/-! ### Claim C1 — pagination completeness -/

/-- Claim C1, counterexample to the claim as stated: with a configured limit
of 0 the engine substitutes the default limit 10 before slicing, so on a
one-document store with `offset = 0`, `limit = 0` it returns 1 item while the
claimed formula `min(limit, max(0, total - offset))` demands 0. -/
theorem c1_pagination_counterexample :
    searchGo [paginationDoc] ctxNever ""
        { Limit := 0, Offset := 0, SortBy := [], Filters := [] } =
      .ok { Items := [⟨"1", 1, [("title", .vstr "x")]⟩], Total := 1,
            MaxScore := 1, Query := "", NextOffset := none } ∧
    ¬ ((1 : Int) = min 0 (max 0 ((1 : Int) - 0))) :=
  ⟨rfl, by decide⟩

/-- Claim C1 (amended): the items-length and next-offset formulas hold for
every configured `offset ≥ 0` and `limit ≥ 1`; a configured limit of 0 is
first replaced by the default 10 (to which the formulas then apply), rather
than producing an empty page as the unamended claim demands.  `Total` is the
number of documents that pass the filters and score positively, counted
before slicing. -/
theorem c1_pagination_amended (docs : List Document) (query : String)
    (cfg : SearchConfig) (hoff : 0 ≤ cfg.Offset) (hlim : 1 ≤ cfg.Limit) :
    ∃ r : SearchResults, searchGo docs ctxNever query cfg = .ok r ∧
      r.Total = ((docs.filter fun d =>
          matchesFilters d cfg.Filters &&
            decide (0 < scoreDocument d query)).length : Int) ∧
      (r.Items.length : Int) = min cfg.Limit (max 0 (r.Total - cfg.Offset)) ∧
      (r.NextOffset.isSome ↔ cfg.Offset + r.Items.length < r.Total) := by
  refine ⟨_, searchGo_ok docs query cfg hoff (by omega), ?_, ?_, ?_⟩
  · simp only [length_sortMatches, searchMatches_eq_map_filter, List.length_map]
  · have hne0 : ¬ cfg.Limit = 0 := by omega
    simp only [hne0, if_false, List.length_map, List.length_drop,
      List.length_take, length_sortMatches, searchMatches_eq_map_filter]
    unfold clampHi
    split_ifs <;> omega
  · have hne0 : ¬ cfg.Limit = 0 := by omega
    simp only [hne0, if_false, List.length_map, List.length_drop,
      List.length_take, length_sortMatches, searchMatches_eq_map_filter]
    unfold clampHi
    split_ifs <;> simp <;> omega

/-- Witness for `c1_pagination_amended` at a concrete input. -/
theorem c1_pagination_amended_witness :
    ∃ r : SearchResults,
      searchGo [paginationDoc] ctxNever ""
          { Limit := 1, Offset := 0, SortBy := [], Filters := [] } = .ok r ∧
      r.Total = (([paginationDoc].filter fun d =>
          matchesFilters d [] && decide (0 < scoreDocument d "")).length : Int) ∧
      (r.Items.length : Int) = min 1 (max 0 (r.Total - 0)) ∧
      (r.NextOffset.isSome ↔ 0 + r.Items.length < r.Total) :=
  c1_pagination_amended [paginationDoc] ""
    { Limit := 1, Offset := 0, SortBy := [], Filters := [] }
    (by decide) (by decide)

/-! ### Claim C6 — slice-bound clamping -/

/-- Claim C6, counterexample to the claim as stated: the code clamps the
slice bounds only from above, never up to 0, so a negative configured offset
reaches the item loop as a negative start index: on a one-document store with
`offset = -1`, `limit = 1` the Go code panics indexing `matches[-1]`
(modelled by the dedicated error value), instead of clamping the start into
`[0, total]` as the claim asserts. -/
theorem c6_clamping_counterexample :
    searchGo [paginationDoc] ctxNever ""
        { Limit := 1, Offset := -1, SortBy := [], Filters := [] } =
      .error .panicIndexOutOfRange ∧
    clampHi (-1) 1 < 0 :=
  ⟨rfl, by decide⟩

/-- Claim C6 (amended): `total` is the number of ranked candidates before
slicing, and both bounds are clamped from above to `total` only; for
configured `offset ≥ 0` and `limit ≥ 0` both clamped bounds land in
`[0, total]`, the slice indices are in bounds, and the returned items are the
contiguous sub-list `[start, end)` of the ranked candidates.  For negative
configured values there is no clamp from below and the slice indexing is out
of bounds (see the counterexample). -/
theorem c6_clamping_amended (docs : List Document) (query : String)
    (cfg : SearchConfig) (hoff : 0 ≤ cfg.Offset) (hlim : 0 ≤ cfg.Limit) :
    ∃ r : SearchResults, searchGo docs ctxNever query cfg = .ok r ∧
      ∃ startB endB : Int,
        startB = clampHi cfg.Offset r.Total ∧
        endB = clampHi (cfg.Offset + (if cfg.Limit = 0 then 10 else cfg.Limit))
          r.Total ∧
        r.Total = ((sortMatches (searchMatches docs query cfg.Filters)
          cfg.SortBy).length : Int) ∧
        0 ≤ startB ∧ startB ≤ endB ∧ endB ≤ r.Total ∧
        r.Items = (((sortMatches (searchMatches docs query cfg.Filters)
            cfg.SortBy).map toSResult).take endB.toNat).drop startB.toNat := by
  refine ⟨_, searchGo_ok docs query cfg hoff hlim, _, _, rfl, rfl, rfl, ?_, ?_, ?_, ?_⟩
  · exact clampHi_nonneg hoff (Int.ofNat_nonneg _)
  · refine clampHi_mono _ ?_
    have : (0 : Int) ≤ (if cfg.Limit = 0 then 10 else cfg.Limit) := by
      split_ifs <;> omega
    omega
  · unfold clampHi
    split <;> omega
  · simp [List.map_take, List.map_drop]

/-- Witness for `c6_clamping_amended` at a concrete input. -/
theorem c6_clamping_amended_witness :
    ∃ r : SearchResults,
      searchGo [paginationDoc] ctxNever ""
          { Limit := 2, Offset := 1, SortBy := [], Filters := [] } = .ok r ∧
      ∃ startB endB : Int,
        startB = clampHi 1 r.Total ∧
        endB = clampHi (1 + (if (2 : Int) = 0 then 10 else 2)) r.Total ∧
        r.Total = ((sortMatches (searchMatches [paginationDoc] "" [])
          []).length : Int) ∧
        0 ≤ startB ∧ startB ≤ endB ∧ endB ≤ r.Total ∧
        r.Items = (((sortMatches (searchMatches [paginationDoc] "" [])
            []).map toSResult).take endB.toNat).drop startB.toNat :=
  c6_clamping_amended [paginationDoc] ""
    { Limit := 2, Offset := 1, SortBy := [], Filters := [] }
    (by decide) (by decide)

/-! ### Claim C2 — the relevance scoring algorithm -/

theorem scoreFromCounts_nonneg (counts : List ℕ) : 0 ≤ scoreFromCounts counts := by
  unfold scoreFromCounts
  have hbase : (0 : ℚ) ≤ (counts.map fun c : ℕ => (c : ℚ)).sum := by
    apply List.sum_nonneg
    intro x hx
    rcases List.mem_map.mp hx with ⟨c, _, rfl⟩
    exact Nat.cast_nonneg c
  by_cases h1 : counts.isEmpty
  · rw [if_pos h1]
    norm_num
  · rw [if_neg h1]
    by_cases h2 : counts.countP (fun c => decide (0 < c)) = 0
    · rw [if_pos h2]
    · rw [if_neg h2]
      by_cases h3 : counts.countP (fun c => decide (0 < c)) = counts.length
      · rw [if_pos h3]
        positivity
      · rw [if_neg h3]
        exact hbase

theorem specScore_eq_scoreFromCounts (doc : Document) (query : String) :
    specScore doc query =
      scoreFromCounts
        ((splitWs (goToLowerChars query.data)).map (termFieldHits doc)) := by
  unfold specScore scoreFromCounts termFieldHits
  simp only [← List.countP_eq_length_filter, List.countP_map, List.length_map,
    List.isEmpty_iff, List.map_eq_nil_iff, List.all_eq_true, decide_eq_true_eq,
    List.countP_eq_zero, List.countP_eq_length, Function.comp, Nat.not_lt,
    Nat.le_zero, List.map_map]
  rfl

/-- Claim C2: the relevance score follows the specified algorithm — empty or
whitespace-only query scores 1; otherwise the lower-cased query is split on
whitespace, each (term, top-level field) pair whose value contains the term
(recursively, case-insensitively, scalars via their rendering) adds 1.0, a
document in which no term is found scores 0 and is excluded from the match
list, a document containing every term has its sum multiplied by 1.5, and the
score is never negative.  `specScore` is written from the specification's
words; `scoreDocument` from the code. -/
theorem c2_scoring (doc : Document) (query : String) :
    scoreDocument doc query = specScore doc query ∧
    0 ≤ scoreDocument doc query ∧
    (∀ (docs : List Document) (filters : List Expr) (sd : ScoredDoc),
      sd ∈ searchMatches docs query filters → 0 < sd.score) := by
  have hkey : scoreDocument doc query = specScore doc query := by
    by_cases hq : query = ""
    · subst hq
      rfl
    · rw [scoreDocument_eq_scoreFromCounts doc query hq,
        specScore_eq_scoreFromCounts]
  refine ⟨hkey, ?_, ?_⟩
  · by_cases hq : query = ""
    · subst hq
      unfold scoreDocument
      norm_num
    · rw [scoreDocument_eq_scoreFromCounts doc query hq]
      exact scoreFromCounts_nonneg _
  · intro docs filters sd hsd
    rw [searchMatches_eq_map_filter] at hsd
    rcases List.mem_map.mp hsd with ⟨d, hd, rfl⟩
    have := (List.mem_filter.mp hd).2
    simp at this
    exact this.2

/-- Witness for `c2_scoring` at a concrete document and query. -/
theorem c2_scoring_witness :
    scoreDocument scoringDoc "go" = specScore scoringDoc "go" ∧
    0 ≤ scoreDocument scoringDoc "go" ∧
    (∀ (docs : List Document) (filters : List Expr) (sd : ScoredDoc),
      sd ∈ searchMatches docs "go" filters → 0 < sd.score) :=
  c2_scoring scoringDoc "go"

/-! ### Claim C3 — absent-field semantics of the operators -/

/-- Claim C3: on a document whose field map lacks `f`, `Eq(f, v)` holds iff
`v` is null, `Ne(f, v)` holds iff `v` is non-null, while `Gt`, `Gte`, `Lt`,
`Lte` and `Range` are false regardless of their operands and `Exists(f)` is
false — the Eq/Ne null-comparison handling and the always-false ordering
handling are asymmetric, exactly as coded. -/
theorem c3_absent_field (doc : Document) (f : String) (v lo hi : Value)
    (h : doc.Fields.lookup f = none) :
    (evaluateExpression doc (.eqE f v) = true ↔ v = .vnull) ∧
    (evaluateExpression doc (.neE f v) = true ↔ v ≠ .vnull) ∧
    evaluateExpression doc (.gtE f v) = false ∧
    evaluateExpression doc (.gteE f v) = false ∧
    evaluateExpression doc (.ltE f v) = false ∧
    evaluateExpression doc (.lteE f v) = false ∧
    evaluateExpression doc (.rangeE f lo hi) = false ∧
    evaluateExpression doc (.existsE f) = false := by
  have hg : doc.fieldGet f = none := h
  refine ⟨?_, ?_, ?_, ?_, ?_, ?_, ?_, ?_⟩ <;>
    simp [evaluateExpression, hg, Value.isNullB_eq_true_iff,
      Value.isNullB_eq_false_iff]

/-- Witness for `c3_absent_field` on a concrete document missing the field. -/
theorem c3_absent_field_witness :
    (evaluateExpression ⟨"d", []⟩ (.eqE "x" .vnull) = true ↔
      Value.vnull = .vnull) ∧
    (evaluateExpression ⟨"d", []⟩ (.neE "x" .vnull) = true ↔
      Value.vnull ≠ .vnull) ∧
    evaluateExpression ⟨"d", []⟩ (.gtE "x" .vnull) = false ∧
    evaluateExpression ⟨"d", []⟩ (.gteE "x" .vnull) = false ∧
    evaluateExpression ⟨"d", []⟩ (.ltE "x" .vnull) = false ∧
    evaluateExpression ⟨"d", []⟩ (.lteE "x" .vnull) = false ∧
    evaluateExpression ⟨"d", []⟩ (.rangeE "x" (.vint 0) (.vint 9)) = false ∧
    evaluateExpression ⟨"d", []⟩ (.existsE "x") = false :=
  c3_absent_field ⟨"d", []⟩ "x" .vnull (.vint 0) (.vint 9) rfl

/-! ### Claim C4 — the loose equality rule -/

/-- Claim C4: the Eq/Ne value-equality test treats two nulls as equal and a
single null as unequal; two numeric-coercible values compare by their
normalized rationals (so integer 5 equals floating 5.0); any other pair
compares by identical canonical string renderings (so boolean `true` equals
the string `"true"`). -/
theorem c4_equality_rule (a b : Value) :
    (a = .vnull → b = .vnull → compareEqual a b = true) ∧
    (a = .vnull → b ≠ .vnull → compareEqual a b = false) ∧
    (a ≠ .vnull → b = .vnull → compareEqual a b = false) ∧
    (∀ fa fb : ℚ, toFloat64 a = some fa → toFloat64 b = some fb →
      (compareEqual a b = true ↔ fa = fb)) ∧
    (a ≠ .vnull → b ≠ .vnull → (toFloat64 a = none ∨ toFloat64 b = none) →
      (compareEqual a b = true ↔ renderValue a = renderValue b)) ∧
    compareEqual (.vint 5) (.vfloat 5) = true ∧
    compareEqual (.vbool true) (.vstr "true") = true := by
  refine ⟨?_, ?_, ?_, ?_, ?_, by rfl, by rfl⟩
  · rintro rfl rfl
    rfl
  · rintro rfl hb
    have hbn : b.isNullB = false := (Value.isNullB_eq_false_iff b).mpr hb
    simp [compareEqual, hbn, Value.isNullB]
  · rintro ha rfl
    have han : a.isNullB = false := (Value.isNullB_eq_false_iff a).mpr ha
    simp [compareEqual, han, Value.isNullB]
  · intro fa fb hfa hfb
    have ha : a ≠ .vnull := by
      rintro rfl
      simp [toFloat64] at hfa
    have hb : b ≠ .vnull := by
      rintro rfl
      simp [toFloat64] at hfb
    have han : a.isNullB = false := (Value.isNullB_eq_false_iff a).mpr ha
    have hbn : b.isNullB = false := (Value.isNullB_eq_false_iff b).mpr hb
    simp [compareEqual, han, hbn, hfa, hfb]
  · intro ha hb hnone
    have han : a.isNullB = false := (Value.isNullB_eq_false_iff a).mpr ha
    have hbn : b.isNullB = false := (Value.isNullB_eq_false_iff b).mpr hb
    rcases hnone with hn | hn <;>
      rcases hfa : toFloat64 a with _ | fa <;>
      rcases hfb : toFloat64 b with _ | fb <;>
      simp_all [compareEqual, han, hbn]

/-- Witness for `c4_equality_rule` at concrete values. -/
theorem c4_equality_rule_witness :
    ((Value.vbool true) = .vnull → (Value.vstr "true") = .vnull →
      compareEqual (.vbool true) (.vstr "true") = true) ∧
    ((Value.vbool true) = .vnull → (Value.vstr "true") ≠ .vnull →
      compareEqual (.vbool true) (.vstr "true") = false) ∧
    ((Value.vbool true) ≠ .vnull → (Value.vstr "true") = .vnull →
      compareEqual (.vbool true) (.vstr "true") = false) ∧
    (∀ fa fb : ℚ, toFloat64 (.vbool true) = some fa →
      toFloat64 (.vstr "true") = some fb →
      (compareEqual (.vbool true) (.vstr "true") = true ↔ fa = fb)) ∧
    ((Value.vbool true) ≠ .vnull → (Value.vstr "true") ≠ .vnull →
      (toFloat64 (.vbool true) = none ∨ toFloat64 (.vstr "true") = none) →
      (compareEqual (.vbool true) (.vstr "true") = true ↔
        renderValue (.vbool true) = renderValue (.vstr "true"))) ∧
    compareEqual (.vint 5) (.vfloat 5) = true ∧
    compareEqual (.vbool true) (.vstr "true") = true :=
  c4_equality_rule (.vbool true) (.vstr "true")

/-! ### Claim C5 — the ordering rule and null-first ascending sort -/

/-- Claim C5: `compareValues` returns 0 on null/null, -1 when only the left
side is null (and 1 symmetrically), compares numeric-coercible pairs by their
normalized rationals, and anything else by code-point order of the canonical
renderings; consequently an ascending sort on a document field (the reserved
pseudo-field `_score` refers to the relevance score instead) places a
document missing the field before one holding any non-null value for it. -/
theorem c5_ordering_rule (d1 d2 : ScoredDoc) (f : String) (v : Value)
    (hf : f ≠ "_score") (h1 : d1.document.Fields.lookup f = none)
    (h2 : d2.document.Fields.lookup f = some v) (hv : v ≠ .vnull) :
    compareValues .vnull .vnull = 0 ∧
    compareValues .vnull v = -1 ∧
    compareValues v .vnull = 1 ∧
    (∀ (a b : Value) (fa fb : ℚ), toFloat64 a = some fa →
      toFloat64 b = some fb →
      compareValues a b = (if fa < fb then -1 else if fa > fb then 1 else 0)) ∧
    (∀ a b : Value, a ≠ .vnull → b ≠ .vnull →
      (toFloat64 a = none ∨ toFloat64 b = none) →
      compareValues a b =
        charsCompare (renderValue a).data (renderValue b).data) ∧
    sortMatches [d1, d2] [⟨f, false⟩] = [d1, d2] ∧
    sortMatches [d2, d1] [⟨f, false⟩] = [d1, d2] := by
  have hvn : v.isNullB = false := (Value.isNullB_eq_false_iff v).mpr hv
  have hnull2 : compareValues .vnull v = -1 := by
    simp [compareValues, Value.isNullB, hvn]
  have hnull3 : compareValues v .vnull = 1 := by
    simp [compareValues, Value.isNullB, hvn]
  have hless21 : multiKeyLess [⟨f, false⟩] d2 d1 = false := by
    simp [multiKeyLess, hf, Document.fieldGet, h1, h2, hnull3]
  have hless12 : multiKeyLess [⟨f, false⟩] d1 d2 = true := by
    simp [multiKeyLess, hf, Document.fieldGet, h1, h2, hnull2]
  refine ⟨rfl, hnull2, hnull3, ?_, ?_, ?_, ?_⟩
  · intro a b fa fb hfa hfb
    have ha : a.isNullB = false := by
      rcases a with _ | _ | _ | _ | _ | _ | _ <;> simp_all [toFloat64, Value.isNullB]
    have hb : b.isNullB = false := by
      rcases b with _ | _ | _ | _ | _ | _ | _ <;> simp_all [toFloat64, Value.isNullB]
    simp [compareValues, ha, hb, hfa, hfb]
  · intro a b hna hnb hnone
    have ha : a.isNullB = false := (Value.isNullB_eq_false_iff a).mpr hna
    have hb : b.isNullB = false := (Value.isNullB_eq_false_iff b).mpr hnb
    unfold compareValues
    simp only [ha, hb, Bool.false_and, Bool.false_eq_true, if_false]
    rcases hfa : toFloat64 a with _ | fa <;> rcases hfb : toFloat64 b with _ | fb
    · rfl
    · rfl
    · rfl
    · exfalso
      rcases hnone with hn | hn
      · rw [hn] at hfa
        cases hfa
      · rw [hn] at hfb
        cases hfb
  · simp only [sortMatches, List.isEmpty_cons, Bool.false_eq_true, if_false,
      insertionSortGo, insertGo, hless21, Bool.not_false, if_true]
  · simp only [sortMatches, List.isEmpty_cons, Bool.false_eq_true, if_false,
      insertionSortGo, insertGo, hless12, hless21, Bool.not_false,
      Bool.not_true, if_true, if_false]

/-- Witness for `c5_ordering_rule`: a two-match list where the `f` field is
absent in one document and holds a string in the other. -/
theorem c5_ordering_rule_witness :
    compareValues .vnull .vnull = 0 ∧
    compareValues .vnull (.vstr "x") = -1 ∧
    compareValues (.vstr "x") .vnull = 1 ∧
    (∀ (a b : Value) (fa fb : ℚ), toFloat64 a = some fa →
      toFloat64 b = some fb →
      compareValues a b = (if fa < fb then -1 else if fa > fb then 1 else 0)) ∧
    (∀ a b : Value, a ≠ .vnull → b ≠ .vnull →
      (toFloat64 a = none ∨ toFloat64 b = none) →
      compareValues a b =
        charsCompare (renderValue a).data (renderValue b).data) ∧
    sortMatches [sortDocA, sortDocB] [⟨"f", false⟩] = [sortDocA, sortDocB] ∧
    sortMatches [sortDocB, sortDocA] [⟨"f", false⟩] = [sortDocA, sortDocB] :=
  c5_ordering_rule sortDocA sortDocB "f" (.vstr "x") (by decide) rfl rfl
    (by intro h; exact Value.noConfusion h)

/-! ### Claim C7 — score monotonicity of the all-terms boost -/

theorem forall2_sum_le (counts sub : List ℕ)
    (hrel : List.Forall₂ (fun c s => s = c ∨ s = 0) counts sub) :
    (sub.map fun c : ℕ => (c : ℚ)).sum ≤ (counts.map fun c : ℕ => (c : ℚ)).sum := by
  induction hrel with
  | nil => simp
  | cons hcs hrest ih =>
    simp only [List.map_cons, List.sum_cons]
    rcases hcs with h | h
    · exact add_le_add (by rw [h]) ih
    · refine add_le_add ?_ ih
      rw [h]
      positivity

/-- Claim C7: the score is determined by the per-term field-hit counts
(`scoreDocument` factors through `scoreFromCounts`), and for any query of at
least two terms, a document matching every term (per-term hit counts
`counts`, all positive) scores at least 1.5 times what it would score
matching only a strict non-empty subset of the terms with identical hit
counts for those terms (`sub`: entrywise either equal to `counts` or 0, with
at least one positive and at least one zero entry). -/
theorem c7_boost_monotonicity (doc : Document) (query : String)
    (counts sub : List ℕ) (hq : query ≠ "") (hlen : 2 ≤ counts.length)
    (hrel : List.Forall₂ (fun c s => s = c ∨ s = 0) counts sub)
    (hpos : ∀ c ∈ counts, 0 < c)
    (hsub_pos : ∃ s ∈ sub, 0 < s)
    (hsub_zero : ∃ s ∈ sub, s = 0) :
    scoreDocument doc query =
      scoreFromCounts
        ((splitWs (goToLowerChars query.data)).map (termFieldHits doc)) ∧
    (3 / 2 : ℚ) * scoreFromCounts sub ≤ scoreFromCounts counts := by
  refine ⟨scoreDocument_eq_scoreFromCounts doc query hq, ?_⟩
  have hlens : counts.length = sub.length := hrel.length_eq
  have hce : counts.isEmpty = false := by
    cases counts
    · simp at hlen
    · rfl
  have hse : sub.isEmpty = false := by
    cases hs : sub
    · rw [hs] at hlens
      simp only [List.length_nil] at hlens
      omega
    · rfl
  have hmc : counts.countP (fun c => decide (0 < c)) = counts.length := by
    rw [List.countP_eq_length]
    intro a ha
    simpa using hpos a ha
  have hms0 : sub.countP (fun c => decide (0 < c)) ≠ 0 := by
    rw [Ne, List.countP_eq_zero]
    rcases hsub_pos with ⟨s, hs, hspos⟩
    intro hall
    exact hall s hs (by simpa using hspos)
  have hmsl : sub.countP (fun c => decide (0 < c)) ≠ sub.length := by
    rw [Ne, List.countP_eq_length]
    rcases hsub_zero with ⟨s, hs, hszero⟩
    intro hall
    have := hall s hs
    simp [hszero] at this
  have hsum : (sub.map fun c : ℕ => (c : ℚ)).sum ≤
      (counts.map fun c : ℕ => (c : ℚ)).sum := forall2_sum_le counts sub hrel
  have hmc0 : counts.countP (fun c => decide (0 < c)) ≠ 0 := by
    intro h0
    rw [h0] at hmc
    omega
  unfold scoreFromCounts
  rw [hce, hse]
  simp only [Bool.false_eq_true, if_false]
  rw [if_neg hms0, if_neg hmsl, if_neg hmc0, if_pos hmc]
  rw [mul_comm]
  exact mul_le_mul_of_nonneg_right hsum (by norm_num)

/-- Witness for `c7_boost_monotonicity` at concrete hit-count lists. -/
theorem c7_boost_monotonicity_witness :
    scoreDocument scoringDoc "go" =
      scoreFromCounts
        ((splitWs (goToLowerChars "go".data)).map (termFieldHits scoringDoc)) ∧
    (3 / 2 : ℚ) * scoreFromCounts [2, 0] ≤ scoreFromCounts [2, 2] :=
  c7_boost_monotonicity scoringDoc "go" [2, 2] [2, 0] (by decide) (by decide)
    (by simp) (by decide) (by decide) (by decide)

/-! ### Claim C8 — cancellation semantics -/

/-- Claim C8: `Search` returns `ErrCanceled` with no result envelope exactly
when the caller's signal has fired at one of its checks — check 0 before the
scan begins, and one further check at each document visited (checks 1 to n on
an n-document store).  The embedding is a pure function of the document list:
a cancelled search returns only the error value, never a partial envelope,
and leaves the store unchanged (the Go method takes only a read lock and
writes nothing). -/
theorem c8_cancellation (docs : List Document) (ctxDone : ℕ → Bool)
    (query : String) (cfg : SearchConfig) :
    (ctxDone 0 = true → searchGo docs ctxDone query cfg = .error .canceled) ∧
    ((∃ t, t ≤ docs.length ∧ ctxDone t = true) →
      searchGo docs ctxDone query cfg = .error .canceled) ∧
    (searchGo docs ctxDone query cfg = .error .canceled →
      ∃ t, t ≤ docs.length ∧ ctxDone t = true) := by
  refine ⟨?_, ?_, ?_⟩
  · intro h0
    unfold searchGo
    rw [if_pos h0]
  · rintro ⟨t, ht, hc⟩
    by_cases h0 : ctxDone 0 = true
    · unfold searchGo
      rw [if_pos h0]
    · rw [Bool.not_eq_true] at h0
      have ht1 : 1 ≤ t := by
        rcases Nat.eq_zero_or_pos t with rfl | h
        · rw [h0] at hc
          cases hc
        · exact h
      have hscan : scanDocs ctxDone query cfg.Filters docs 1 =
          .error .canceled :=
        (scanDocs_canceled_iff ctxDone query cfg.Filters docs 1).mpr
          ⟨t, ht1, by omega, hc⟩
      simp [searchGo, h0, hscan]
  · intro h
    by_cases h0 : ctxDone 0 = true
    · exact ⟨0, by omega, h0⟩
    · rw [Bool.not_eq_true] at h0
      rcases hscan : scanDocs ctxDone query cfg.Filters docs 1 with e | ms
      · have he : e = .canceled := by
          simp only [searchGo, h0, Bool.false_eq_true, if_false, hscan] at h
          injection h
        rcases (scanDocs_canceled_iff ctxDone query cfg.Filters docs 1).mp
            (by rw [hscan, he]) with ⟨j, h1, h2, h3⟩
        exact ⟨j, by omega, h3⟩
      · exfalso
        simp only [searchGo, h0, Bool.false_eq_true, if_false, hscan] at h
        split_ifs at h <;> simp at h

/-- Witness for `c8_cancellation` on a concrete store and an
immediately-cancelled context. -/
theorem c8_cancellation_witness :
    ((fun _ : ℕ => true) 0 = true →
      searchGo [paginationDoc] (fun _ => true) ""
          { Limit := 1, Offset := 0, SortBy := [], Filters := [] } =
        .error .canceled) ∧
    ((∃ t, t ≤ [paginationDoc].length ∧ (fun _ : ℕ => true) t = true) →
      searchGo [paginationDoc] (fun _ => true) ""
          { Limit := 1, Offset := 0, SortBy := [], Filters := [] } =
        .error .canceled) ∧
    (searchGo [paginationDoc] (fun _ => true) ""
          { Limit := 1, Offset := 0, SortBy := [], Filters := [] } =
        .error .canceled →
      ∃ t, t ≤ [paginationDoc].length ∧ (fun _ : ℕ => true) t = true) :=
  c8_cancellation [paginationDoc] (fun _ => true) ""
    { Limit := 1, Offset := 0, SortBy := [], Filters := [] }

/-! ### Claim C9 — idempotent upsert -/

theorem set_append_self (l : List α) (a : α) :
    (l ++ [a]).set l.length a = l ++ [a] := by
  induction l with
  | nil => rfl
  | cons b t ih => simp [List.set, ih]

/-- Claim C9: `AddDocument` is an idempotent upsert.  Adding the same
document twice yields the very same store state as adding it once (for every
store state, well-formed or not); on a well-formed store, adding a document
whose id sits at position `i` replaces position `i` in place, keeps `Size`
and every other position unchanged, and adding a document with a fresh id
appends it, growing `Size` by exactly 1. -/
theorem c9_idempotent_upsert (s : Store) (doc : Document) (hwf : StoreWF s) :
    AddDocument (AddDocument s doc) doc = AddDocument s doc ∧
    (∀ i : Fin s.documents.length, (s.documents.get i).ID = doc.ID →
      (AddDocument s doc).documents = s.documents.set i.1 doc ∧
      Size (AddDocument s doc) = Size s ∧
      (∀ j : ℕ, j ≠ i.1 →
        (AddDocument s doc).documents[j]? = s.documents[j]?)) ∧
    ((∀ d ∈ s.documents, d.ID ≠ doc.ID) →
      (AddDocument s doc).documents = s.documents ++ [doc] ∧
      Size (AddDocument s doc) = Size s + 1) := by
  refine ⟨?_, ?_, ?_⟩
  · rcases hl : s.idIndex.lookup doc.ID with _ | idx
    · have hl2 : ((doc.ID, s.documents.length) :: s.idIndex).lookup doc.ID =
          some s.documents.length := by
        simp [List.lookup]
      simp only [AddDocument, hl, hl2]
      rw [Store.mk.injEq]
      exact ⟨set_append_self _ _, rfl⟩
    · simp only [AddDocument, hl]
      rw [Store.mk.injEq]
      exact ⟨List.set_set _ _ _ _, rfl⟩
  · intro i hid
    have hl : s.idIndex.lookup doc.ID = some i.1 := by
      rw [← hid]
      exact hwf.2 i
    simp only [AddDocument, hl, Size]
    refine ⟨trivial, by simp, ?_⟩
    intro j hj
    exact List.getElem?_set_ne (fun h => hj h.symm)
  · intro hfresh
    have hl : s.idIndex.lookup doc.ID = none := by
      rcases hl : s.idIndex.lookup doc.ID with _ | idx
      · rfl
      · exfalso
        have hmem := lookup_mem hl
        have := hwf.1 _ hmem
        simp only [Option.map_eq_some'] at this
        rcases this with ⟨d, hd, hdid⟩
        rcases List.getElem?_eq_some.mp hd with ⟨hlt, hget⟩
        have hdmem : d ∈ s.documents := by
          rw [← hget]
          exact List.getElem_mem _
        exact hfresh d hdmem hdid
    simp only [AddDocument, hl, Size]
    exact ⟨trivial, by simp⟩

/-- Witness for `c9_idempotent_upsert` on a concrete well-formed store. -/
theorem c9_idempotent_upsert_witness :
    AddDocument (AddDocument sampleStore ⟨"1", []⟩) ⟨"1", []⟩ =
      AddDocument sampleStore ⟨"1", []⟩ ∧
    (∀ i : Fin sampleStore.documents.length,
      (sampleStore.documents.get i).ID = "1" →
      (AddDocument sampleStore ⟨"1", []⟩).documents =
        sampleStore.documents.set i.1 ⟨"1", []⟩ ∧
      Size (AddDocument sampleStore ⟨"1", []⟩) = Size sampleStore ∧
      (∀ j : ℕ, j ≠ i.1 →
        (AddDocument sampleStore ⟨"1", []⟩).documents[j]? =
          sampleStore.documents[j]?)) ∧
    ((∀ d ∈ sampleStore.documents, d.ID ≠ "1") →
      (AddDocument sampleStore ⟨"1", []⟩).documents =
        sampleStore.documents ++ [⟨"1", []⟩] ∧
      Size (AddDocument sampleStore ⟨"1", []⟩) = Size sampleStore + 1) :=
  c9_idempotent_upsert sampleStore ⟨"1", []⟩ (by constructor <;> decide)

/-! ### Claim C10 — at most 1.0 per (term, field) pair -/

theorem listAnyContains_eq_any (items : List Value) (term : List Char) :
    listAnyContains items term = items.any fun it => valueContainsTerm it term := by
  induction items with
  | nil => rfl
  | cons v rest ih => simp [listAnyContains, ih]

theorem mapAnyContains_eq_any (kvs : List (String × Value)) (term : List Char) :
    mapAnyContains kvs term = kvs.any fun kv => valueContainsTerm kv.2 term := by
  induction kvs with
  | nil => rfl
  | cons kv rest ih => simp [mapAnyContains, ih]

/-- Claim C10: the containment check on a field value is a single Boolean —
inside lists and maps it is the `any` of the element checks, so repeated
occurrences of a term under one top-level field contribute at most 1.0 — and
a term found in k distinct top-level fields contributes exactly k to the
pre-boost score: `termFieldHits` is the count of fields whose value contains
the term, is bounded by the field count, and the score factors through the
per-term `termFieldHits` sums.  Concretely, `scoringDoc` holds the term `go`
twice inside its `tags` list and once in `title`, and its hit count is 2 (one
per field), not 3. -/
theorem c10_per_field_containment (doc : Document) (term : List Char) :
    termFieldHits doc term =
      (doc.Fields.filter fun kv => valueContainsTerm kv.2 term).length ∧
    termFieldHits doc term ≤ doc.Fields.length ∧
    (∀ items : List Value, valueContainsTerm (.vlist items) term =
      items.any fun it => valueContainsTerm it term) ∧
    (∀ kvs : List (String × Value), valueContainsTerm (.vmap kvs) term =
      kvs.any fun kv => valueContainsTerm kv.2 term) ∧
    termFieldHits scoringDoc ("go".data) = 2 ∧
    (∀ query : String, query ≠ "" →
      scoreDocument doc query =
        scoreFromCounts
          ((splitWs (goToLowerChars query.data)).map (termFieldHits doc))) := by
  refine ⟨List.countP_eq_length_filter _ _, List.countP_le_length _, ?_, ?_,
    by rfl, fun query hq => scoreDocument_eq_scoreFromCounts doc query hq⟩
  · intro items
    rw [← listAnyContains_eq_any]
    rfl
  · intro kvs
    rw [← mapAnyContains_eq_any]
    rfl

/-- Witness for `c10_per_field_containment` at a concrete document and
term. -/
theorem c10_per_field_containment_witness :
    termFieldHits scoringDoc ("go".data) =
      (scoringDoc.Fields.filter fun kv =>
        valueContainsTerm kv.2 ("go".data)).length ∧
    termFieldHits scoringDoc ("go".data) ≤ scoringDoc.Fields.length ∧
    (∀ items : List Value, valueContainsTerm (.vlist items) ("go".data) =
      items.any fun it => valueContainsTerm it ("go".data)) ∧
    (∀ kvs : List (String × Value), valueContainsTerm (.vmap kvs) ("go".data) =
      kvs.any fun kv => valueContainsTerm kv.2 ("go".data)) ∧
    termFieldHits scoringDoc ("go".data) = 2 ∧
    (∀ query : String, query ≠ "" →
      scoreDocument scoringDoc query =
        scoreFromCounts
          ((splitWs (goToLowerChars query.data)).map
            (termFieldHits scoringDoc))) :=
  c10_per_field_containment scoringDoc ("go".data)
